import Mathlib

/-!
Shallow embedding of `kedro_datasets/ibis/file_dataset.py` (class
`FileDataset`): the connection registry with its `hashable` cache-key
normalization, the constructor's handling of defaults, and the
`load` / `save` / `_describe` / `_exists` operations.

Python values appearing in configurations are modelled by the inductive
`Value`; Python dicts are insertion-ordered association lists with string
keys (as Python dicts are for the configurations this class receives).
The external collaborators — the Ibis backend (`connect`, `read_<fmt>`,
`to_<fmt>`), the kedro versioning resolver (`_get_load_path` /
`_get_save_path`) and the filesystem — are modelled as parameters and
call records: the adapter's behaviour is what it passes to them and how
it threads the process-wide registry, which is exactly what the claims
are about.
-/

/-- A Python value appearing in a connection / argument configuration:
a string, an integer, a dict (insertion-ordered association list with
string keys) or a list. -/
inductive Value where
  | str : String → Value
  | int : Int → Value
  | dict : List (String × Value) → Value
  | list : List Value → Value

/-- A Python dict with string keys, in insertion order. -/
abbrev Dict := List (String × Value)

/-- A key produced by the `hashable` helper inside `FileDataset.connection`:
scalars are returned as-is, and both dicts and lists are turned into
Python tuples (`HKey.tup`).  A dict entry `(k, v)` becomes the 2-tuple
`HKey.tup [HKey.str k, hashable v]`. -/
inductive HKey where
  | str : String → HKey
  | int : Int → HKey
  | tup : List HKey → HKey

mutual

/-- Python `==` on `HKey` (tuples compare componentwise). -/
def beqHKey : HKey → HKey → Bool
  | .str s, .str t => s == t
  | .int m, .int n => m == n
  | .tup xs, .tup ys => beqHKeyList xs ys
  | _, _ => false
termination_by a _ => sizeOf a

/-- Componentwise equality of tuple contents. -/
def beqHKeyList : List HKey → List HKey → Bool
  | [], [] => true
  | x :: xs, y :: ys => beqHKey x y && beqHKeyList xs ys
  | _, _ => false
termination_by l _ => sizeOf l

end

/-- One step of the insertion sort embedding Python's `sorted` on
`value.items()`: dict keys are unique, so `sorted` orders the pairs by
their string key. -/
def insertByKey (p : String × Value) : List (String × Value) → List (String × Value)
  | [] => [p]
  | q :: qs => if p.1 ≤ q.1 then p :: q :: qs else q :: insertByKey p qs

/-- `sorted(value.items())`: the entry list ordered by key (ascending,
stable; keys of a Python dict are unique, so the comparison never
reaches the values). -/
def sortByKey : List (String × Value) → List (String × Value)
  | [] => []
  | p :: ps => insertByKey p (sortByKey ps)

mutual

/-- The `hashable` helper of `FileDataset.connection`:

    if isinstance(value, dict):
        return tuple((k, hashable(v)) for k, v in sorted(value.items()))
    if isinstance(value, list):
        return tuple(hashable(x) for x in value)
    return value
-/
def hashable : Value → HKey
  | .str s => .str s
  | .int n => .int n
  | .dict kvs => .tup (hashEntries (sortByKey kvs))
  | .list xs => .tup (hashList xs)
termination_by v => sizeOf v
decreasing_by
  · have hins : ∀ (p : String × Value) (l : List (String × Value)),
        sizeOf (insertByKey p l) = 1 + sizeOf p + sizeOf l := by
      intro p l
      induction l with
      | nil => simp [insertByKey]
      | cons q qs ih =>
          simp only [insertByKey]
          split
          · simp
          · simp [ih]; omega
    have hsort : ∀ l : List (String × Value), sizeOf (sortByKey l) = sizeOf l := by
      intro l
      induction l with
      | nil => rfl
      | cons p ps ih => simp [sortByKey, hins, ih]
    simp [hsort]
  · simp

/-- `tuple((k, hashable(v)) for k, v in ...)`: each entry becomes the
2-tuple `(k, hashable v)`. -/
def hashEntries : List (String × Value) → List HKey
  | [] => []
  | (k, v) :: kvs => .tup [.str k, hashable v] :: hashEntries kvs
termination_by l => sizeOf l
decreasing_by
  · simp
    omega
  · simp

/-- `tuple(hashable(x) for x in value)` for a list value. -/
def hashList : List Value → List HKey
  | [] => []
  | x :: xs => hashable x :: hashList xs
termination_by l => sizeOf l
decreasing_by
  · simp
    omega
  · simp

end

/-- Insertion step for sorting `(key, normalized value)` pairs by key. -/
def insPair (p : String × HKey) : List (String × HKey) → List (String × HKey)
  | [] => [p]
  | q :: qs => if p.1 ≤ q.1 then p :: q :: qs else q :: insPair p qs

/-- Sort a list of `(key, normalized value)` pairs by key (ascending, stable). -/
def sortPairs : List (String × HKey) → List (String × HKey)
  | [] => []
  | p :: ps => insPair p (sortPairs ps)

mutual

/-- The normalization as the spec words it, for comparison with the
source's `hashable`: a dict becomes the tuple of `(key, normalized
value)` pairs sorted by key, recursing into values; a list becomes the
tuple of its normalized elements; any other value is unchanged. -/
def specNormalize : Value → HKey
  | .str s => .str s
  | .int n => .int n
  | .dict kvs => .tup ((sortPairs (normEntries kvs)).map fun p => .tup [.str p.1, p.2])
  | .list xs => .tup (normList xs)
termination_by v => sizeOf v
decreasing_by
  · simp
  · simp

/-- The `(key, normalized value)` pairs of a dict, in entry order. -/
def normEntries : List (String × Value) → List (String × HKey)
  | [] => []
  | (k, v) :: kvs => (k, specNormalize v) :: normEntries kvs
termination_by l => sizeOf l
decreasing_by
  · simp
    omega
  · simp

/-- The normalized elements of a list value. -/
def normList : List Value → List HKey
  | [] => []
  | x :: xs => specNormalize x :: normList xs
termination_by l => sizeOf l
decreasing_by
  · simp
    omega
  · simp

end

/-- Python dict subscripting / `in` on string keys (keys are unique, so
first match is the match). -/
def lookupV (k : String) : Dict → Option Value
  | [] => none
  | (q, v) :: rest => if k = q then some v else lookupV k rest

mutual

/-- Python `==` on configuration values: scalars by value, lists
pointwise, dicts by key set and per-key values (entry order of a dict
does not matter for `==`). -/
def pyEq : Value → Value → Bool
  | .str s, .str t => s == t
  | .int m, .int n => m == n
  | .dict d1, .dict d2 => d1.length == d2.length && pyEqEntries d1 d2
  | .list l1, .list l2 => pyEqList l1 l2
  | _, _ => false
termination_by a _ => sizeOf a

/-- Every entry of the first dict is matched by an equal value under the
same key in the second. -/
def pyEqEntries : List (String × Value) → List (String × Value) → Bool
  | [], _ => true
  | (k, v) :: rest, d2 =>
      (match lookupV k d2 with
       | some w => pyEq v w
       | none => false)
      && pyEqEntries rest d2
termination_by l _ => sizeOf l
decreasing_by
  · simp
    omega
  · simp

/-- Pointwise Python `==` on lists. -/
def pyEqList : List Value → List Value → Bool
  | [], [] => true
  | x :: xs, y :: ys => pyEq x y && pyEqList xs ys
  | _, _ => false
termination_by l _ => sizeOf l

end

/-- The record of one `backend.connect(**config)` invocation: the value
popped from the `backend` key (resolved via `getattr(ibis, ...)`) and
the remaining configuration entries passed as keyword arguments. -/
structure ConnCall where
  backendId : Value
  kwargs : Dict

/-- The process-wide class attribute `FileDataset._connections`: a dict
from cache key to backend handle.  Handles are opaque live objects;
object identity is modelled by the allocation counter `next`, so each
`connect` call yields a fresh handle and two handles are the identical
object exactly when they are equal as numbers. -/
structure Registry where
  entries : List (HKey × Nat)
  next : Nat

/-- The registry at process start: no connections yet. -/
def emptyRegistry : Registry := ⟨[], 0⟩

/-- Dict lookup on the registry (`key not in cls._connections`,
`cls._connections[key]`): keys are unique, first match wins. -/
def findEntry : List (HKey × Nat) → HKey → Option Nat
  | [], _ => none
  | (q, h) :: es, k => if beqHKey k q then some h else findEntry es k

/-- Python `d.pop(k)`: the value under `k` and the dict without that
entry, or `None` standing for the `KeyError` raised when `k` is absent. -/
def dictPop (k : String) : Dict → Option (Value × Dict)
  | [] => none
  | (q, v) :: rest =>
      if k = q then some (v, rest)
      else
        match dictPop k rest with
        | some (w, rest2) => some (w, (q, v) :: rest2)
        | none => none

/-- The dict without the entry under `k` (unchanged when `k` is absent). -/
def eraseKey (k : String) : Dict → Dict
  | [] => []
  | (q, v) :: rest => if k = q then rest else (q, v) :: eraseKey k rest

/-- What one evaluation of the `connection` property does: the handle
returned (`none` = the `KeyError` from `config.pop("backend")`
propagated, nothing stored), the registry afterwards, the `connect`
invocation made (if any), and the adapter's `_connection_config` field
afterwards. -/
structure ConnResult where
  handle : Option Nat
  registry : Registry
  call : Option ConnCall
  cfgAfter : Dict

/-- The body of the `connection` property:

    key = hashable(self._connection_config)
    if key not in cls._connections:
        config = deepcopy(self._connection_config)
        backend = getattr(ibis, config.pop("backend"))
        cls._connections[key] = backend.connect(**config)
    return cls._connections[key]

`config.pop` mutates the deep copy, never the adapter's field, so
`cfgAfter` is the unchanged input in every branch.  On the miss path the
`pop` runs before the registry assignment, so a `KeyError` leaves the
registry unchanged. -/
def connectionStep (cfg : Dict) (st : Registry) : ConnResult :=
  let key := hashable (.dict cfg)
  match findEntry st.entries key with
  | some h => ⟨some h, st, none, cfg⟩
  | none =>
      match dictPop "backend" cfg with
      | none => ⟨none, st, none, cfg⟩
      | some (b, rest) =>
          ⟨some st.next, ⟨(key, st.next) :: st.entries, st.next + 1⟩, some ⟨b, rest⟩, cfg⟩

/-- `kedro.io.core.Version`: the pair of optional pinned load / save
version tokens. -/
structure Version where
  load : Option String
  save : Option String

/-- The per-instance state a constructed `FileDataset` holds: the fields
set by `__init__` (the path is kept as the string handed to
`PurePosixPath`; versioning itself lives in the excluded base class). -/
structure FileDataset where
  filepath : String
  file_format : String
  table_name : Option String
  connection_config : Dict
  load_args : Dict
  save_args : Dict
  version : Option Version
  metadata : Option Value

/-- `DEFAULT_CONNECTION_CONFIG = {"backend": "duckdb", "database": ":memory:"}`. -/
def DEFAULT_CONNECTION_CONFIG : Dict :=
  [("backend", .str "duckdb"), ("database", .str ":memory:")]

/-- `DEFAULT_LOAD_ARGS = {}`. -/
def DEFAULT_LOAD_ARGS : Dict := []

/-- `DEFAULT_SAVE_ARGS = {}`. -/
def DEFAULT_SAVE_ARGS : Dict := []

/-- Python `d[k] = v`: replace in place when the key exists, append
otherwise (dicts keep insertion order). -/
def setKey : Dict → String → Value → Dict
  | [], k, v => [(k, v)]
  | (q, w) :: rest, k, v =>
      if q = k then (k, v) :: rest else (q, w) :: setKey rest k v

/-- Python `base.update(overrides)`: set every entry of `overrides` in
`base`, in order. -/
def dictUpdate (base overrides : Dict) : Dict :=
  overrides.foldl (fun d kv => setKey d kv.1 kv.2) base

/-- `FileDataset.__init__`.  `connection or self.DEFAULT_CONNECTION_CONFIG`
takes the default when `connection` is `None` or falsy (the empty dict);
the load/save argument maps start from a deep copy of the (empty)
defaults and are then `update`d with the overrides when given. -/
def mkFileDataset (filepath : String) (file_format : String := "parquet")
    (table_name : Option String := none) (connection : Option Dict := none)
    (load_args : Option Dict := none) (save_args : Option Dict := none)
    (version : Option Version := none) (metadata : Option Value := none) :
    FileDataset :=
  { filepath := filepath
    file_format := file_format
    table_name := table_name
    connection_config :=
      match connection with
      | none => DEFAULT_CONNECTION_CONFIG
      | some c => if c.isEmpty then DEFAULT_CONNECTION_CONFIG else c
    load_args :=
      match load_args with
      | none => DEFAULT_LOAD_ARGS
      | some la => dictUpdate DEFAULT_LOAD_ARGS la
    save_args :=
      match save_args with
      | none => DEFAULT_SAVE_ARGS
      | some sa => dictUpdate DEFAULT_SAVE_ARGS sa
    version := version
    metadata := metadata }

/-- A filesystem path, as its list of components. -/
abbrev FPath := List String

/-- The set of directories that exist, as a list of paths. -/
abbrev FS := List FPath

/-- The proper work of `dir.mkdir(parents=True, ...)`: `dir` itself and
every ancestor of it. -/
def ancestorsOf (dir : FPath) : List FPath :=
  (List.range dir.length).map fun i => dir.take (i + 1)

/-- `Path(save_path).parent.mkdir(parents=True, exist_ok=True)` applied
to `dir`: afterwards `dir` and all its ancestors exist; an already
existing directory is kept (`exist_ok=True` — never an error). -/
def mkdirParents (fs : FS) (dir : FPath) : FS :=
  ancestorsOf dir ++ fs

/-- `kedro.io.DatasetError`, as raised by the versioning resolver when
no version can be resolved. -/
structure DatasetError where
  msg : String

/-- How a `load` / `save` call ends: the versioning resolver's
`DatasetError` propagated, the `KeyError` from a missing `backend` key
propagated, or the backend method invoked. -/
inductive Outcome (α : Type) where
  | datasetError (e : DatasetError)
  | keyError (key : String)
  | ok (a : α)

/-- The invocation `reader(load_path, self._table_name, **self._load_args)`
where `reader = getattr(self.connection, f"read_{self._file_format}")`:
the handle it is looked up on, the method name, and the exact
arguments. -/
structure ReadCall where
  handle : Nat
  method : String
  path : FPath
  tableName : Option String
  kwargs : Dict

/-- The invocation `writer(data, save_path, **self._save_args)` where
`writer = getattr(self.connection, f"to_{self._file_format}")`. -/
structure WriteCall where
  handle : Nat
  method : String
  data : Nat
  path : FPath
  kwargs : Dict

/-- `FileDataset.load`.  `loadPath` is the outcome of the external
versioning resolver `self._get_load_path()` (a `DatasetError` when no
version can be resolved); on success the connection is obtained for the
adapter's configuration and the format-named reader is invoked.  The
call record is the reader's invocation; `load` returns that reader's
result unchanged. -/
def loadStep (ds : FileDataset) (loadPath : Except DatasetError FPath)
    (st : Registry) : Outcome ReadCall × Registry :=
  match loadPath with
  | .error e => (.datasetError e, st)
  | .ok p =>
      let r := connectionStep ds.connection_config st
      match r.handle with
      | none => (.keyError "backend", r.registry)
      | some h =>
          (.ok ⟨h, "read_" ++ ds.file_format, p, ds.table_name, ds.load_args⟩,
           r.registry)

/-- `FileDataset.save`.  `savePath` is the outcome of
`self._get_save_path()`; on success the parent directory of the resolved
path is created (with all missing ancestors, `exist_ok=True`) before the
connection is obtained and the format-named writer invoked with the
data, the resolved path and the save arguments.  Python returns `None`;
the call record is what was passed to the writer.  `data` is the opaque
`ir.Table` argument. -/
def saveStep (ds : FileDataset) (data : Nat)
    (savePath : Except DatasetError FPath) (st : Registry) (fs : FS) :
    Outcome WriteCall × Registry × FS :=
  match savePath with
  | .error e => (.datasetError e, st, fs)
  | .ok p =>
      let fs2 := mkdirParents fs p.dropLast
      let r := connectionStep ds.connection_config st
      match r.handle with
      | none => (.keyError "backend", r.registry, fs2)
      | some h =>
          (.ok ⟨h, "to_" ++ ds.file_format, data, p, ds.save_args⟩,
           r.registry, fs2)

/-- `FileDataset._exists`:

    try:
        load_path = self._get_load_path()
    except DatasetError:
        return False
    return Path(load_path).exists()

`fsExists` is the filesystem's existence check. -/
def existsStep (loadPath : Except DatasetError FPath)
    (fsExists : FPath → Bool) : Bool :=
  match loadPath with
  | .error _ => false
  | .ok p => fsExists p

/-- The dict `FileDataset._describe` returns: exactly the adapter's
static configuration, with the backend identifier read from the
connection configuration. -/
structure Description where
  filepath : String
  file_format : String
  table_name : Option String
  backend : Value
  load_args : Dict
  save_args : Dict
  version : Option Version

/-- The body of `FileDataset._describe`: a dict literal built from the
adapter's fields; `self._connection_config["backend"]` raises `KeyError`
(here `none`) when the key is absent. -/
def describeOf (ds : FileDataset) : Option Description :=
  match lookupV "backend" ds.connection_config with
  | none => none
  | some b =>
      some ⟨ds.filepath, ds.file_format, ds.table_name, b,
            ds.load_args, ds.save_args, ds.version⟩

/-- `_describe` threaded through the process state: its body reads only
the adapter's fields (source lines 180-189), so the registry and the
filesystem pass through untouched and no connection is created. -/
def describeStep (ds : FileDataset) (st : Registry) (fs : FS) :
    Option Description × Registry × FS :=
  (describeOf ds, st, fs)

/-- One operation of the process lifetime that can touch the shared
registry or the filesystem: an evaluation of the `connection` property,
a `load`, a `save`, an `_exists` check or a `_describe`. -/
inductive Op where
  | connect (cfg : Dict)
  | loadOp (ds : FileDataset) (res : Except DatasetError FPath)
  | saveOp (ds : FileDataset) (data : Nat) (res : Except DatasetError FPath)
  | existsOp (res : Except DatasetError FPath)
  | describeOp (ds : FileDataset)

/-- The registry and filesystem after one operation (`_exists` and
`_describe` touch neither). -/
def runOp (s : Registry × FS) : Op → Registry × FS
  | .connect cfg => ((connectionStep cfg s.1).registry, s.2)
  | .loadOp ds res => ((loadStep ds res s.1).2, s.2)
  | .saveOp ds data res =>
      ((saveStep ds data res s.1 s.2).2.1, (saveStep ds data res s.1 s.2).2.2)
  | .existsOp _ => s
  | .describeOp _ => s

/-- The registry and filesystem after a sequence of operations. -/
def runOps (ops : List Op) (s : Registry × FS) : Registry × FS :=
  ops.foldl runOp s

/-- A slot of a mutable Python dict: an immutable value (string, int,
tuple of such) or a reference to a mutable object on the heap.  This
refined model is used for the aliasing behaviour of the constructor's
argument handling, which the flat `Value` model cannot express. -/
inductive HVal where
  | imm : Value → HVal
  | ref : Nat → HVal

/-- A mutable dict object's entries. -/
abbrev HDict := List (String × HVal)

/-- A mutable Python object: a dict or a list. -/
inductive HObj where
  | dictO : HDict → HObj
  | listO : List HVal → HObj

/-- The object heap: address → object, plus the next fresh address. -/
structure Heap where
  objs : List (Nat × HObj)
  next : Nat

/-- Heap lookup among the address/object pairs. -/
def heapFind : List (Nat × HObj) → Nat → Option HObj
  | [], _ => none
  | (b, o) :: rest, a => if a = b then some o else heapFind rest a

/-- The object at an address. -/
def heapGet (h : Heap) (a : Nat) : Option HObj :=
  heapFind h.objs a

/-- Replace the object stored at an address (mutation of that object). -/
def heapSetEntries : List (Nat × HObj) → Nat → HObj → List (Nat × HObj)
  | [], _, _ => []
  | (b, o) :: rest, a, o2 =>
      if a = b then (b, o2) :: rest else (b, o) :: heapSetEntries rest a o2

/-- Mutate the object at address `a` in place. -/
def heapSet (h : Heap) (a : Nat) (o : HObj) : Heap :=
  ⟨heapSetEntries h.objs a o, h.next⟩

/-- Python `d[k] = v` on a mutable dict's entries. -/
def hsetKey : HDict → String → HVal → HDict
  | [], k, v => [(k, v)]
  | (q, w) :: rest, k, v =>
      if q = k then (k, v) :: rest else (q, w) :: hsetKey rest k v

/-- Python `base.update(overrides)` on mutable dicts: each slot of
`overrides` is copied into `base` — the slot, not the object it refers
to, so referenced objects become shared. -/
def hdictUpdate (base overrides : HDict) : HDict :=
  overrides.foldl (fun d kv => hsetKey d kv.1 kv.2) base

/-- The constructor's argument handling on the heap:
`self._load_args = deepcopy(self.DEFAULT_LOAD_ARGS)` allocates a fresh
dict object (the deep copy of the empty default `{}`), and
`self._load_args.update(load_args)` copies the top-level slots of the
dict object passed at `ovAddr`, sharing whatever they reference.
Returns the address of the adapter's stored dict and the heap
afterwards.  (`DEFAULT_SAVE_ARGS` is also `{}`, so the same step models
`save_args`.) -/
def initArgsStep (h : Heap) (ovAddr : Nat) : Nat × Heap :=
  let ovEntries :=
    match heapGet h ovAddr with
    | some (.dictO d) => d
    | _ => []
  (h.next, ⟨(h.next, .dictO (hdictUpdate [] ovEntries)) :: h.objs, h.next + 1⟩)

mutual

/-- The fully dereferenced value of a slot, with fuel against reference
cycles (`none` = out of fuel or dangling reference). -/
def deepHVal : Nat → Heap → HVal → Option Value
  | 0, _, _ => none
  | _ + 1, _, .imm v => some v
  | fuel + 1, h, .ref a =>
      match heapGet h a with
      | some (.dictO d) => (deepEntries fuel h d).map Value.dict
      | some (.listO l) => (deepList fuel h l).map Value.list
      | none => none
termination_by fuel _ v => (fuel, sizeOf v)

/-- Dereference every entry of a dict object. -/
def deepEntries : Nat → Heap → HDict → Option (List (String × Value))
  | _, _, [] => some []
  | fuel, h, (k, v) :: rest =>
      match deepHVal fuel h v, deepEntries fuel h rest with
      | some w, some ws => some ((k, w) :: ws)
      | _, _ => none
termination_by fuel _ l => (fuel, sizeOf l)

/-- Dereference every element of a list object. -/
def deepList : Nat → Heap → List HVal → Option (List Value)
  | _, _, [] => some []
  | fuel, h, x :: xs =>
      match deepHVal fuel h x, deepList fuel h xs with
      | some w, some ws => some (w :: ws)
      | _, _ => none
termination_by fuel _ l => (fuel, sizeOf l)

end

/-- The effective (fully dereferenced) argument map stored at `a`. -/
def deepArgsAt (fuel : Nat) (h : Heap) (a : Nat) : Option Value :=
  deepHVal fuel h (.ref a)

/-- Well-formedness of the registry: stored handles precede the
allocation counter, and distinct keys hold distinct handles (handles are
distinct objects).  Holds for every registry reachable from process
start. -/
def RegistryWF (st : Registry) : Prop :=
  (∀ k h, findEntry st.entries k = some h → h < st.next) ∧
  (∀ k k' h h', findEntry st.entries k = some h →
    findEntry st.entries k' = some h' → k ≠ k' → h ≠ h')

mutual

/-- `beqHKey` decides equality of cache keys. -/
theorem beqHKey_iff : (a b : HKey) → (beqHKey a b = true ↔ a = b)
  | .str s, .str t => by simp [beqHKey]
  | .str _, .int _ => by simp [beqHKey]
  | .str _, .tup _ => by simp [beqHKey]
  | .int _, .str _ => by simp [beqHKey]
  | .int m, .int n => by simp [beqHKey]
  | .int _, .tup _ => by simp [beqHKey]
  | .tup _, .str _ => by simp [beqHKey]
  | .tup _, .int _ => by simp [beqHKey]
  | .tup xs, .tup ys => by simp [beqHKey, beqHKeyList_iff xs ys]
termination_by a _ => sizeOf a

/-- `beqHKeyList` decides equality of tuple contents. -/
theorem beqHKeyList_iff : (xs ys : List HKey) → (beqHKeyList xs ys = true ↔ xs = ys)
  | [], [] => by simp [beqHKeyList]
  | [], _ :: _ => by simp [beqHKeyList]
  | _ :: _, [] => by simp [beqHKeyList]
  | x :: xs, y :: ys => by
      simp [beqHKeyList, Bool.and_eq_true, beqHKey_iff x y, beqHKeyList_iff xs ys]
termination_by l _ => sizeOf l

end

/-- A lookup hit on the registry survives one evaluation of the
`connection` property: an entry is only ever added under a key that was
absent, never removed or replaced. -/
theorem connectionStep_preserves (cfg : Dict) (st : Registry) (k : HKey) (h : Nat)
    (hfind : findEntry st.entries k = some h) :
    findEntry (connectionStep cfg st).registry.entries k = some h := by
  unfold connectionStep
  cases hkey : findEntry st.entries (hashable (.dict cfg)) with
  | some h2 => simpa [hkey] using hfind
  | none =>
      cases hpop : dictPop "backend" cfg with
      | none => simpa [hkey, hpop] using hfind
      | some bv =>
          simp only [hkey, hpop, findEntry]
          have hne : beqHKey k (hashable (.dict cfg)) = false := by
            cases hbe : beqHKey k (hashable (.dict cfg)) with
            | false => rfl
            | true =>
                rw [(beqHKey_iff _ _).mp hbe] at hfind
                rw [hfind] at hkey
                cases hkey
          simp [hne, hfind]

/-- The registry a `load` leaves behind is the one the `connection`
property leaves behind (or untouched when path resolution failed). -/
theorem loadStep_registry (ds : FileDataset) (res : Except DatasetError FPath)
    (st : Registry) :
    (loadStep ds res st).2 = st ∨
    (loadStep ds res st).2 = (connectionStep ds.connection_config st).registry := by
  cases res with
  | error e => exact Or.inl rfl
  | ok p =>
      cases hh : (connectionStep ds.connection_config st).handle with
      | none => exact Or.inr (by simp [loadStep, hh])
      | some h => exact Or.inr (by simp [loadStep, hh])

/-- Likewise for `save`. -/
theorem saveStep_registry (ds : FileDataset) (data : Nat)
    (res : Except DatasetError FPath) (st : Registry) (fs : FS) :
    (saveStep ds data res st fs).2.1 = st ∨
    (saveStep ds data res st fs).2.1 = (connectionStep ds.connection_config st).registry := by
  cases res with
  | error e => exact Or.inl rfl
  | ok p =>
      cases hh : (connectionStep ds.connection_config st).handle with
      | none => exact Or.inr (by simp [saveStep, hh])
      | some h => exact Or.inr (by simp [saveStep, hh])

/-- A stored handle survives any one operation. -/
theorem runOp_preserves (s : Registry × FS) (op : Op) (k : HKey) (h : Nat)
    (hfind : findEntry s.1.entries k = some h) :
    findEntry (runOp s op).1.entries k = some h := by
  cases op with
  | connect cfg => exact connectionStep_preserves cfg s.1 k h hfind
  | loadOp ds res =>
      rcases loadStep_registry ds res s.1 with heq | heq <;>
        simp only [runOp, heq]
      · exact hfind
      · exact connectionStep_preserves _ s.1 k h hfind
  | saveOp ds data res =>
      rcases saveStep_registry ds data res s.1 s.2 with heq | heq <;>
        simp only [runOp, heq]
      · exact hfind
      · exact connectionStep_preserves _ s.1 k h hfind
  | existsOp res => exact hfind
  | describeOp ds => exact hfind

/-- A stored handle survives any sequence of operations: nothing is ever
evicted or replaced. -/
theorem runOps_preserves (ops : List Op) (s : Registry × FS) (k : HKey) (h : Nat)
    (hfind : findEntry s.1.entries k = some h) :
    findEntry (runOps ops s).1.entries k = some h := by
  induction ops generalizing s with
  | nil => exact hfind
  | cons op rest ih => exact ih (runOp s op) (runOp_preserves s op k h hfind)

/-- After a successful evaluation of the `connection` property the
returned handle is the one stored under the configuration's key. -/
theorem connectionStep_lookup (cfg : Dict) (st : Registry) (h : Nat)
    (hh : (connectionStep cfg st).handle = some h) :
    findEntry (connectionStep cfg st).registry.entries (hashable (.dict cfg)) = some h := by
  unfold connectionStep at hh ⊢
  cases hkey : findEntry st.entries (hashable (.dict cfg)) with
  | some h2 =>
      simp only [hkey] at hh ⊢
      simpa [hkey] using hh
  | none =>
      cases hpop : dictPop "backend" cfg with
      | none => simp [hkey, hpop] at hh
      | some bv =>
          simp only [hkey, hpop] at hh ⊢
          have : beqHKey (hashable (.dict cfg)) (hashable (.dict cfg)) = true :=
            (beqHKey_iff _ _).mpr rfl
          simp [findEntry, this]
          simpa using hh

/-- A hit returns the stored handle and leaves the registry as it was. -/
theorem connectionStep_hit (cfg : Dict) (st : Registry) (h : Nat)
    (hfind : findEntry st.entries (hashable (.dict cfg)) = some h) :
    connectionStep cfg st = ⟨some h, st, none, cfg⟩ := by
  unfold connectionStep
  simp [hfind]

/-- The registry at process start is well-formed. -/
theorem emptyRegistry_WF : RegistryWF emptyRegistry := by
  constructor
  · intro k h hf
    simp [emptyRegistry, findEntry] at hf
  · intro k k' h h' hf
    simp [emptyRegistry, findEntry] at hf

/-- One evaluation of the `connection` property keeps the registry
well-formed: the new handle is fresh, and it is stored under a key that
had no entry. -/
theorem connectionStep_WF (cfg : Dict) (st : Registry) (hwf : RegistryWF st) :
    RegistryWF (connectionStep cfg st).registry := by
  obtain ⟨hlt, hinj⟩ := hwf
  unfold connectionStep
  cases hkey : findEntry st.entries (hashable (.dict cfg)) with
  | some h2 => simpa [hkey] using ⟨hlt, hinj⟩
  | none =>
      cases hpop : dictPop "backend" cfg with
      | none => simpa [hkey, hpop] using ⟨hlt, hinj⟩
      | some bv =>
          simp only [hkey, hpop]
          constructor
          · intro k h hf
            simp only [findEntry] at hf
            show h < st.next + 1
            by_cases hb : beqHKey k (hashable (.dict cfg)) = true
            · simp only [hb, if_pos, Option.some.injEq] at hf
              omega
            · simp only [Bool.not_eq_true] at hb
              simp only [hb, Bool.false_eq_true, if_neg, not_false_iff] at hf
              have := hlt k h hf
              omega
          · intro k k' h h' hf hf' hne
            simp only [findEntry] at hf hf'
            by_cases hb : beqHKey k (hashable (.dict cfg)) = true <;>
              by_cases hb' : beqHKey k' (hashable (.dict cfg)) = true
            · exact absurd (((beqHKey_iff _ _).mp hb).trans
                ((beqHKey_iff _ _).mp hb').symm) hne
            · simp only [hb, if_pos, Option.some.injEq] at hf
              simp only [Bool.not_eq_true] at hb'
              simp only [hb', Bool.false_eq_true, if_neg, not_false_iff] at hf'
              have := hlt k' h' hf'
              omega
            · simp only [hb', if_pos, Option.some.injEq] at hf'
              simp only [Bool.not_eq_true] at hb
              simp only [hb, Bool.false_eq_true, if_neg, not_false_iff] at hf
              have := hlt k h hf
              omega
            · simp only [Bool.not_eq_true] at hb hb'
              simp only [hb, hb', Bool.false_eq_true, if_neg, not_false_iff] at hf hf'
              exact hinj k k' h h' hf hf' hne

/-- Any one operation keeps the registry well-formed. -/
theorem runOp_WF (s : Registry × FS) (op : Op) (hwf : RegistryWF s.1) :
    RegistryWF (runOp s op).1 := by
  cases op with
  | connect cfg => exact connectionStep_WF cfg s.1 hwf
  | loadOp ds res =>
      rcases loadStep_registry ds res s.1 with heq | heq <;> simp only [runOp, heq]
      · exact hwf
      · exact connectionStep_WF _ s.1 hwf
  | saveOp ds data res =>
      rcases saveStep_registry ds data res s.1 s.2 with heq | heq <;>
        simp only [runOp, heq]
      · exact hwf
      · exact connectionStep_WF _ s.1 hwf
  | existsOp res => exact hwf
  | describeOp ds => exact hwf

/-- Any sequence of operations keeps the registry well-formed. -/
theorem runOps_WF (ops : List Op) (s : Registry × FS) (hwf : RegistryWF s.1) :
    RegistryWF (runOps ops s).1 := by
  induction ops generalizing s with
  | nil => exact hwf
  | cons op rest ih => exact ih (runOp s op) (runOp_WF s op hwf)

/-- C1: once a handle is stored in the registry under a key, no
operation (connection lookup, load, save, exists, describe) ever removes
or replaces it; and for any two adapters (or two calls) whose connection
configurations are equal after normalization, a later `connection`
evaluation — with any operations in between — returns the very handle
the earlier one returned, leaving the registry untouched. -/
theorem C1_connection_identity :
    (∀ (k : HKey) (h : Nat) (s : Registry × FS) (ops : List Op),
        findEntry s.1.entries k = some h →
        findEntry (runOps ops s).1.entries k = some h) ∧
    (∀ (c1 c2 : Dict) (s : Registry × FS) (ops : List Op) (h : Nat),
        hashable (.dict c1) = hashable (.dict c2) →
        (connectionStep c1 s.1).handle = some h →
        (connectionStep c2 (runOps ops ((connectionStep c1 s.1).registry, s.2)).1).handle
            = some h ∧
        (connectionStep c2 (runOps ops ((connectionStep c1 s.1).registry, s.2)).1).registry
            = (runOps ops ((connectionStep c1 s.1).registry, s.2)).1) := by
  constructor
  · intro k h s ops hf
    exact runOps_preserves ops s k h hf
  · intro c1 c2 s ops h heq hh
    have hl : findEntry (connectionStep c1 s.1).registry.entries (hashable (.dict c1))
        = some h := connectionStep_lookup c1 s.1 h hh
    have hl2 : findEntry (runOps ops ((connectionStep c1 s.1).registry, s.2)).1.entries
        (hashable (.dict c1)) = some h :=
      runOps_preserves ops ((connectionStep c1 s.1).registry, s.2) _ h hl
    rw [heq] at hl2
    have hres := connectionStep_hit c2 (runOps ops ((connectionStep c1 s.1).registry, s.2)).1
      h hl2
    rw [hres]
    exact ⟨rfl, rfl⟩

/-- Witness for C1: the default configuration and the same configuration
with its entries in the other order normalize equally; with a `polars`
connection created in between, the second lookup still returns handle 0. -/
theorem C1_connection_identity_witness :
    hashable (.dict [("backend", Value.str "duckdb"), ("database", Value.str ":memory:")]) =
      hashable (.dict [("database", Value.str ":memory:"), ("backend", Value.str "duckdb")]) ∧
    (connectionStep [("backend", Value.str "duckdb"), ("database", Value.str ":memory:")]
        emptyRegistry).handle = some 0 ∧
    (connectionStep [("database", Value.str ":memory:"), ("backend", Value.str "duckdb")]
        (runOps [Op.connect [("backend", Value.str "polars")]]
          ((connectionStep [("backend", Value.str "duckdb"), ("database", Value.str ":memory:")]
              emptyRegistry).registry, ([] : FS))).1).handle = some 0 :=
  ⟨by simp +decide [hashable, hashEntries, hashList, sortByKey, insertByKey],
   by simp +decide [connectionStep, emptyRegistry, findEntry, dictPop],
   (C1_connection_identity.2
      [("backend", Value.str "duckdb"), ("database", Value.str ":memory:")]
      [("database", Value.str ":memory:"), ("backend", Value.str "duckdb")]
      (emptyRegistry, ([] : FS))
      [Op.connect [("backend", Value.str "polars")]] 0
      (by simp +decide [hashable, hashEntries, hashList, sortByKey, insertByKey])
      (by simp +decide [connectionStep, emptyRegistry, findEntry, dictPop])).1⟩

/-- Inserting an entry adds exactly its size (the sort permutes, never
drops or duplicates). -/
theorem sizeOf_insertByKey (p : String × Value) (l : List (String × Value)) :
    sizeOf (insertByKey p l) = 1 + sizeOf p + sizeOf l := by
  induction l with
  | nil => simp [insertByKey]
  | cons q qs ih =>
      simp only [insertByKey]
      split
      · simp
      · simp [ih]
        omega

/-- Sorting the entries of a dict preserves their total size. -/
theorem sizeOf_sortByKey (l : List (String × Value)) :
    sizeOf (sortByKey l) = sizeOf l := by
  induction l with
  | nil => rfl
  | cons p ps ih => simp [sortByKey, sizeOf_insertByKey, ih]

/-- Normalizing the values of entries commutes with inserting an entry:
both insertion sorts compare keys only, and normalization keeps keys. -/
theorem normEntries_insertByKey (p : String × Value) (l : List (String × Value)) :
    normEntries (insertByKey p l) = insPair (p.1, specNormalize p.2) (normEntries l) := by
  obtain ⟨pk, pv⟩ := p
  induction l with
  | nil => simp [insertByKey, normEntries, insPair]
  | cons q qs ih =>
      obtain ⟨qk, qv⟩ := q
      simp only [insertByKey]
      by_cases hle : pk ≤ qk
      · simp [normEntries, insPair, hle]
      · simp [normEntries, insPair, hle, ih]

/-- Normalizing the values of entries commutes with sorting by key. -/
theorem normEntries_sortByKey (l : List (String × Value)) :
    normEntries (sortByKey l) = sortPairs (normEntries l) := by
  induction l with
  | nil => simp [sortByKey, normEntries, sortPairs]
  | cons p ps ih =>
      obtain ⟨pk, pv⟩ := p
      simp only [sortByKey, normEntries_insertByKey, ih]
      simp [normEntries, sortPairs]

mutual

/-- The source's `hashable` computes exactly the normalization the spec
words: sorted `(key, normalized value)` tuples for dicts, elementwise
tuples for lists, scalars unchanged. -/
theorem hashable_eq_specNormalize : (v : Value) → hashable v = specNormalize v
  | .str s => by simp [hashable, specNormalize]
  | .int n => by simp [hashable, specNormalize]
  | .dict kvs => by
      rw [show hashable (.dict kvs) = .tup (hashEntries (sortByKey kvs)) from by
            simp [hashable],
          show specNormalize (.dict kvs)
              = .tup ((sortPairs (normEntries kvs)).map fun p => .tup [.str p.1, p.2]) from by
            simp [specNormalize],
          hashEntries_eq_normEntries (sortByKey kvs), normEntries_sortByKey]
  | .list xs => by
      rw [show hashable (.list xs) = .tup (hashList xs) from by simp [hashable],
          show specNormalize (.list xs) = .tup (normList xs) from by simp [specNormalize],
          hashList_eq_normList xs]
termination_by v => sizeOf v
decreasing_by
  · simp [sizeOf_sortByKey]
  · simp

/-- `hashEntries` is the tuple image of the normalized entry pairs. -/
theorem hashEntries_eq_normEntries : (l : List (String × Value)) →
    hashEntries l = (normEntries l).map fun p => HKey.tup [.str p.1, p.2]
  | [] => by simp [hashEntries, normEntries]
  | (k, v) :: rest => by
      simp [hashEntries, normEntries, hashable_eq_specNormalize v,
        hashEntries_eq_normEntries rest]
termination_by l => sizeOf l
decreasing_by
  · simp
    omega
  · simp

/-- `hashList` agrees with elementwise normalization. -/
theorem hashList_eq_normList : (xs : List Value) → hashList xs = normList xs
  | [] => by simp [hashList, normList]
  | x :: xs => by
      simp [hashList, normList, hashable_eq_specNormalize x, hashList_eq_normList xs]
termination_by l => sizeOf l
decreasing_by
  · simp
    omega
  · simp

end

/-- C2: the cache-key normalization computes exactly what the spec
states — dict → tuple of `(key, normalized value)` pairs sorted by key,
recursing into values; list → tuple of normalized elements; any other
value unchanged — and two configurations produce the same cache key iff
they are equal under that normalization. -/
theorem C2_normalization_exact :
    (∀ v : Value, hashable v = specNormalize v) ∧
    (∀ c1 c2 : Dict,
      hashable (.dict c1) = hashable (.dict c2) ↔
        specNormalize (.dict c1) = specNormalize (.dict c2)) := by
  refine ⟨hashable_eq_specNormalize, fun c1 c2 => ?_⟩
  rw [hashable_eq_specNormalize, hashable_eq_specNormalize]

/-- A miss stores the fresh handle under the configuration's key, after
popping `backend` from the (copied) configuration and connecting with
the remaining entries. -/
theorem connectionStep_miss (cfg : Dict) (st : Registry) (b : Value) (rest : Dict)
    (hfind : findEntry st.entries (hashable (.dict cfg)) = none)
    (hpop : dictPop "backend" cfg = some (b, rest)) :
    connectionStep cfg st
      = ⟨some st.next, ⟨(hashable (.dict cfg), st.next) :: st.entries, st.next + 1⟩,
          some ⟨b, rest⟩, cfg⟩ := by
  unfold connectionStep
  simp [hfind, hpop]

/-- C3 as stated fails on the code: these two connection configurations
differ in the nested value under `"x"` (a dict in one, a list of
two-element lists in the other — unequal under Python `==`), yet
`hashable` maps both dicts and lists to tuples, so they normalize to the
same cache key and the second `connection` evaluation returns the handle
the first one stored instead of creating a separate connection. -/
theorem C3_isolation_counterexample :
    pyEq (.dict [("backend", Value.str "duckdb"), ("x", Value.dict [("a", Value.int 1)])])
        (.dict [("backend", Value.str "duckdb"),
          ("x", Value.list [Value.list [Value.str "a", Value.int 1]])]) = false ∧
    hashable (.dict [("backend", Value.str "duckdb"), ("x", Value.dict [("a", Value.int 1)])])
      = hashable (.dict [("backend", Value.str "duckdb"),
          ("x", Value.list [Value.list [Value.str "a", Value.int 1]])]) ∧
    (connectionStep [("backend", Value.str "duckdb"), ("x", Value.dict [("a", Value.int 1)])]
        emptyRegistry).handle = some 0 ∧
    (connectionStep
        [("backend", Value.str "duckdb"),
          ("x", Value.list [Value.list [Value.str "a", Value.int 1]])]
        (connectionStep
          [("backend", Value.str "duckdb"), ("x", Value.dict [("a", Value.int 1)])]
          emptyRegistry).registry).handle = some 0 := by
  have hkeys :
      hashable (.dict [("backend", Value.str "duckdb"), ("x", Value.dict [("a", Value.int 1)])])
        = hashable (.dict [("backend", Value.str "duckdb"),
            ("x", Value.list [Value.list [Value.str "a", Value.int 1]])]) := by
    simp +decide [hashable, hashEntries, hashList, sortByKey, insertByKey]
  have h3 :
      (connectionStep [("backend", Value.str "duckdb"), ("x", Value.dict [("a", Value.int 1)])]
        emptyRegistry).handle = some 0 := by
    simp +decide [connectionStep, emptyRegistry, findEntry, dictPop]
  have hl := connectionStep_lookup
    [("backend", Value.str "duckdb"), ("x", Value.dict [("a", Value.int 1)])]
    emptyRegistry 0 h3
  rw [hkeys] at hl
  have hhit := connectionStep_hit
    [("backend", Value.str "duckdb"), ("x", Value.list [Value.list [Value.str "a", Value.int 1]])]
    (connectionStep [("backend", Value.str "duckdb"), ("x", Value.dict [("a", Value.int 1)])]
      emptyRegistry).registry 0 hl
  refine ⟨?_, hkeys, h3, ?_⟩
  · simp +decide [pyEq, pyEqEntries, pyEqList, lookupV]
  · rw [hhit]

/-- C3 amended: in any reachable process state, two configurations whose
normalized cache keys differ get two distinct backend handles (the
registry stores them under two distinct keys and each `connect` yields a
fresh handle). -/
theorem C3_isolation_amended (ops : List Op) (fs0 : FS) (c1 c2 : Dict) (h1 h2 : Nat)
    (hne : hashable (.dict c1) ≠ hashable (.dict c2))
    (hh1 : (connectionStep c1 (runOps ops (emptyRegistry, fs0)).1).handle = some h1)
    (hh2 : (connectionStep c2
        (connectionStep c1 (runOps ops (emptyRegistry, fs0)).1).registry).handle = some h2) :
    h1 ≠ h2 := by
  have hwf : RegistryWF (runOps ops (emptyRegistry, fs0)).1 :=
    runOps_WF ops (emptyRegistry, fs0) emptyRegistry_WF
  have hwf1 := connectionStep_WF c1 (runOps ops (emptyRegistry, fs0)).1 hwf
  have hwf2 := connectionStep_WF c2 _ hwf1
  have hl1 := connectionStep_lookup c1 (runOps ops (emptyRegistry, fs0)).1 h1 hh1
  have hl1' := connectionStep_preserves c2
    (connectionStep c1 (runOps ops (emptyRegistry, fs0)).1).registry _ _ hl1
  have hl2 := connectionStep_lookup c2
    (connectionStep c1 (runOps ops (emptyRegistry, fs0)).1).registry h2 hh2
  exact hwf2.2 _ _ _ _ hl1' hl2 hne

/-- Witness for the amended C3: a `duckdb` and a `polars` configuration
normalize to different keys and receive the distinct handles 0 and 1. -/
theorem C3_isolation_amended_witness :
    hashable (.dict [("backend", Value.str "duckdb")])
        ≠ hashable (.dict [("backend", Value.str "polars")]) ∧
    (connectionStep [("backend", Value.str "duckdb")]
        (runOps [] (emptyRegistry, ([] : FS))).1).handle = some 0 ∧
    (connectionStep [("backend", Value.str "polars")]
        (connectionStep [("backend", Value.str "duckdb")]
          (runOps [] (emptyRegistry, ([] : FS))).1).registry).handle = some 1 ∧
    (0 : Nat) ≠ 1 := by
  have e1 : hashable (.dict [("backend", Value.str "duckdb")])
      = .tup [.tup [.str "backend", .str "duckdb"]] := by
    simp +decide [hashable, hashEntries, hashList, sortByKey, insertByKey]
  have e2 : hashable (.dict [("backend", Value.str "polars")])
      = .tup [.tup [.str "backend", .str "polars"]] := by
    simp +decide [hashable, hashEntries, hashList, sortByKey, insertByKey]
  have hne : hashable (.dict [("backend", Value.str "duckdb")])
      ≠ hashable (.dict [("backend", Value.str "polars")]) := by
    rw [e1, e2]
    simp
  have s1 : connectionStep [("backend", Value.str "duckdb")] emptyRegistry
      = ⟨some 0, ⟨[(hashable (.dict [("backend", Value.str "duckdb")]), 0)], 1⟩,
          some ⟨Value.str "duckdb", []⟩, [("backend", Value.str "duckdb")]⟩ :=
    connectionStep_miss _ _ _ _ (by simp [emptyRegistry, findEntry])
      (by simp +decide [dictPop])
  have hh1 : (connectionStep [("backend", Value.str "duckdb")]
      (runOps [] (emptyRegistry, ([] : FS))).1).handle = some 0 := by
    rw [show (runOps [] (emptyRegistry, ([] : FS))).1 = emptyRegistry from rfl, s1]
  have hf : findEntry [(hashable (.dict [("backend", Value.str "duckdb")]), 0)]
      (hashable (.dict [("backend", Value.str "polars")])) = none := by
    rw [e1, e2]
    simp +decide [findEntry, beqHKey, beqHKeyList]
  have s2 := connectionStep_miss [("backend", Value.str "polars")]
    ⟨[(hashable (.dict [("backend", Value.str "duckdb")]), 0)], 1⟩
    (Value.str "polars") [] hf (by simp +decide [dictPop])
  have hh2 : (connectionStep [("backend", Value.str "polars")]
      (connectionStep [("backend", Value.str "duckdb")]
        (runOps [] (emptyRegistry, ([] : FS))).1).registry).handle = some 1 := by
    rw [show (runOps [] (emptyRegistry, ([] : FS))).1 = emptyRegistry from rfl, s1, s2]
  exact ⟨hne, hh1, hh2,
    C3_isolation_amended [] [] [("backend", Value.str "duckdb")]
      [("backend", Value.str "polars")] 0 1 hne hh1 hh2⟩

/-- `d.pop(k)` is exactly: the value under `k` together with the dict
without that entry (`KeyError` when absent). -/
theorem dictPop_eq (k : String) (d : Dict) :
    dictPop k d = (lookupV k d).map fun v => (v, eraseKey k d) := by
  induction d with
  | nil => simp [dictPop, lookupV]
  | cons qw rest ih =>
      obtain ⟨q, w⟩ := qw
      by_cases hkq : k = q
      · simp [dictPop, lookupV, eraseKey, hkq]
      · simp only [dictPop, lookupV, eraseKey, if_neg hkq, ih]
        cases hlv : lookupV k rest <;> simp [hlv]

/-- C4: on a cache miss, `connection` pops the `backend` key out of a
deep copy of the configuration, connects with exactly the remaining
entries as keyword arguments, stores the fresh handle under the
normalized key, and leaves the adapter's stored configuration unchanged
(the `backend` key is still present in it afterwards). -/
theorem C4_cache_miss_connect (cfg : Dict) (st : Registry) (b : Value)
    (hfind : findEntry st.entries (hashable (.dict cfg)) = none)
    (hb : lookupV "backend" cfg = some b) :
    (connectionStep cfg st).call = some ⟨b, eraseKey "backend" cfg⟩ ∧
    (connectionStep cfg st).handle = some st.next ∧
    (connectionStep cfg st).registry.entries
        = (hashable (.dict cfg), st.next) :: st.entries ∧
    (connectionStep cfg st).registry.next = st.next + 1 ∧
    findEntry (connectionStep cfg st).registry.entries (hashable (.dict cfg))
        = some st.next ∧
    (connectionStep cfg st).cfgAfter = cfg ∧
    lookupV "backend" (connectionStep cfg st).cfgAfter = some b := by
  have hpop : dictPop "backend" cfg = some (b, eraseKey "backend" cfg) := by
    rw [dictPop_eq, hb]
    rfl
  have hm := connectionStep_miss cfg st b (eraseKey "backend" cfg) hfind hpop
  rw [hm]
  have hrefl : beqHKey (hashable (.dict cfg)) (hashable (.dict cfg)) = true :=
    (beqHKey_iff _ _).mpr rfl
  exact ⟨rfl, rfl, rfl, rfl, by simp [findEntry, hrefl], rfl, hb⟩

/-- Witness for C4: the default configuration on the empty registry. -/
theorem C4_cache_miss_connect_witness :
    findEntry emptyRegistry.entries
        (hashable (.dict [("backend", Value.str "duckdb"), ("database", Value.str ":memory:")]))
      = none ∧
    lookupV "backend" [("backend", Value.str "duckdb"), ("database", Value.str ":memory:")]
      = some (Value.str "duckdb") ∧
    (connectionStep [("backend", Value.str "duckdb"), ("database", Value.str ":memory:")]
        emptyRegistry).call
      = some ⟨Value.str "duckdb",
          eraseKey "backend"
            [("backend", Value.str "duckdb"), ("database", Value.str ":memory:")]⟩ :=
  ⟨by simp [emptyRegistry, findEntry],
   by simp +decide [lookupV],
   (C4_cache_miss_connect
      [("backend", Value.str "duckdb"), ("database", Value.str ":memory:")]
      emptyRegistry (Value.str "duckdb")
      (by simp [emptyRegistry, findEntry]) (by simp +decide [lookupV])).1⟩

/-- C5 as stated fails on the code: `self._load_args.update(load_args)`
copies only the top-level slots, sharing the referenced objects.  On a
heap where the dict passed as `load_args` (address 1) holds `{"x": [1]}`
with the list at address 0, the adapter's stored map is allocated at the
fresh address 2, yet appending `2` to the list at address 0 — a mutation
of a value nested inside the passed dict — changes the adapter's
effective arguments from `{"x": [1]}` to `{"x": [1, 2]}`. -/
theorem C5_nested_mutation_counterexample :
    (initArgsStep ⟨[(0, HObj.listO [.imm (.int 1)]), (1, HObj.dictO [("x", .ref 0)])], 2⟩ 1).1
      = 2 ∧
    deepArgsAt 5
        (initArgsStep ⟨[(0, HObj.listO [.imm (.int 1)]), (1, HObj.dictO [("x", .ref 0)])], 2⟩
          1).2 2
      = some (.dict [("x", Value.list [Value.int 1])]) ∧
    deepArgsAt 5
        (heapSet
          (initArgsStep
            ⟨[(0, HObj.listO [.imm (.int 1)]), (1, HObj.dictO [("x", .ref 0)])], 2⟩ 1).2
          0 (HObj.listO [.imm (.int 1), .imm (.int 2)])) 2
      = some (.dict [("x", Value.list [Value.int 1, Value.int 2])]) ∧
    some (Value.dict [("x", Value.list [Value.int 1])])
      ≠ some (Value.dict [("x", Value.list [Value.int 1, Value.int 2])]) := by
  refine ⟨rfl, ?_, ?_, by simp⟩
  · simp [initArgsStep, hdictUpdate, hsetKey, deepArgsAt, deepHVal, deepEntries, deepList,
      heapGet, heapFind]
  · simp [initArgsStep, hdictUpdate, hsetKey, deepArgsAt, deepHVal, deepEntries, deepList,
      heapGet, heapFind, heapSet, heapSetEntries]

/-- C5 amended: the stored argument maps are the defaults merged with
the overrides given at construction, held in a freshly allocated dict
object, so later top-level mutation of the dict passed as
`load_args`/`save_args` (adding, removing or rebinding entries) does not
change the adapter's stored map; the value slots, however, are copied by
reference, so the stored map shares the objects nested inside the passed
dict (see the counterexample). -/
theorem C5_args_copy_amended :
    (∀ (fp ff : String) (tn : Option String) (conn : Option Dict) (la sa : Dict)
        (v : Option Version) (md : Option Value),
        (mkFileDataset fp ff tn conn (some la) (some sa) v md).load_args
            = dictUpdate DEFAULT_LOAD_ARGS la ∧
        (mkFileDataset fp ff tn conn (some la) (some sa) v md).save_args
            = dictUpdate DEFAULT_SAVE_ARGS sa) ∧
    (∀ (h : Heap) (ovAddr : Nat) (obj : HObj),
        ovAddr < h.next →
        heapGet (heapSet (initArgsStep h ovAddr).2 ovAddr obj) (initArgsStep h ovAddr).1
          = heapGet (initArgsStep h ovAddr).2 (initArgsStep h ovAddr).1) ∧
    (∀ (h : Heap) (ovAddr : Nat) (d : HDict),
        heapGet h ovAddr = some (.dictO d) →
        heapGet (initArgsStep h ovAddr).2 (initArgsStep h ovAddr).1
          = some (.dictO (hdictUpdate [] d))) := by
  refine ⟨fun fp ff tn conn la sa v md => ⟨rfl, rfl⟩, ?_, ?_⟩
  · intro h ovAddr obj hlt
    have hne : ovAddr ≠ h.next := Nat.ne_of_lt hlt
    simp [initArgsStep, heapGet, heapSet, heapSetEntries, heapFind, hne]
  · intro h ovAddr d hd
    unfold heapGet at hd
    simp [initArgsStep, hd, heapGet, heapFind]

/-- Witness for the amended C5: on the counterexample's heap, rebinding
the whole passed dict object (address 1) leaves the adapter's stored map
(address 2) untouched. -/
theorem C5_args_copy_amended_witness :
    (1 : Nat) < 2 ∧
    heapGet
        (heapSet
          (initArgsStep
            ⟨[(0, HObj.listO [.imm (.int 1)]), (1, HObj.dictO [("x", .ref 0)])], 2⟩ 1).2
          1 (HObj.dictO []))
        (initArgsStep
          ⟨[(0, HObj.listO [.imm (.int 1)]), (1, HObj.dictO [("x", .ref 0)])], 2⟩ 1).1
      = heapGet
          (initArgsStep
            ⟨[(0, HObj.listO [.imm (.int 1)]), (1, HObj.dictO [("x", .ref 0)])], 2⟩ 1).2
          (initArgsStep
            ⟨[(0, HObj.listO [.imm (.int 1)]), (1, HObj.dictO [("x", .ref 0)])], 2⟩ 1).1 :=
  ⟨by decide,
   C5_args_copy_amended.2.1
     ⟨[(0, HObj.listO [.imm (.int 1)]), (1, HObj.dictO [("x", .ref 0)])], 2⟩ 1
     (HObj.dictO []) (by decide)⟩

/-- C6: `load` first resolves the load path (propagating the versioning
resolver's `DatasetError` and touching nothing); on success it obtains
the connection for the adapter's configuration and invokes the method
named `read_<file_format>` with exactly the resolved path, the
configured table name and the merged load arguments, returning that
reader's result. -/
theorem C6_load_contract :
    (∀ (ds : FileDataset) (e : DatasetError) (st : Registry),
        loadStep ds (.error e) st = (.datasetError e, st)) ∧
    (∀ (ds : FileDataset) (p : FPath) (st : Registry) (h : Nat),
        (connectionStep ds.connection_config st).handle = some h →
        loadStep ds (.ok p) st
          = (.ok ⟨h, "read_" ++ ds.file_format, p, ds.table_name, ds.load_args⟩,
             (connectionStep ds.connection_config st).registry)) := by
  refine ⟨fun ds e st => rfl, fun ds p st h hh => ?_⟩
  simp [loadStep, hh]

/-- Witness for C6: a csv dataset with the default connection, loaded at
a resolved path. -/
theorem C6_load_contract_witness :
    (connectionStep (mkFileDataset "data/test.csv" "csv").connection_config
        emptyRegistry).handle = some 0 ∧
    loadStep (mkFileDataset "data/test.csv" "csv") (.ok ["data", "test.csv"]) emptyRegistry
      = (.ok ⟨0, "read_" ++ (mkFileDataset "data/test.csv" "csv").file_format,
            ["data", "test.csv"], (mkFileDataset "data/test.csv" "csv").table_name,
            (mkFileDataset "data/test.csv" "csv").load_args⟩,
         (connectionStep (mkFileDataset "data/test.csv" "csv").connection_config
            emptyRegistry).registry) :=
  ⟨by simp +decide [mkFileDataset, DEFAULT_CONNECTION_CONFIG, connectionStep,
      emptyRegistry, findEntry, dictPop],
   C6_load_contract.2 (mkFileDataset "data/test.csv" "csv") ["data", "test.csv"]
     emptyRegistry 0
     (by simp +decide [mkFileDataset, DEFAULT_CONNECTION_CONFIG, connectionStep,
        emptyRegistry, findEntry, dictPop])⟩

/-- C7: `save` resolves the save path (propagating the resolver's
error), then creates the parent directory of the resolved path with all
missing ancestors before writing — with `exist_ok=True`, so for any
prior filesystem state, present parent or not, the call succeeds — and
invokes the method named `to_<file_format>` with exactly the data, the
resolved path and the merged save arguments (Python returns `None`; the
record is what the writer received).  Afterwards every ancestor of the
parent exists, and nothing that existed disappears. -/
theorem C7_save_contract :
    (∀ (ds : FileDataset) (data : Nat) (e : DatasetError) (st : Registry) (fs : FS),
        saveStep ds data (.error e) st fs = (.datasetError e, st, fs)) ∧
    (∀ (ds : FileDataset) (data : Nat) (p : FPath) (st : Registry) (fs : FS) (h : Nat),
        (connectionStep ds.connection_config st).handle = some h →
        saveStep ds data (.ok p) st fs
          = (.ok ⟨h, "to_" ++ ds.file_format, data, p, ds.save_args⟩,
             (connectionStep ds.connection_config st).registry,
             mkdirParents fs p.dropLast) ∧
        (∀ q, q ∈ ancestorsOf p.dropLast → q ∈ mkdirParents fs p.dropLast) ∧
        (∀ q, q ∈ fs → q ∈ mkdirParents fs p.dropLast)) := by
  refine ⟨fun ds data e st fs => rfl, fun ds data p st fs h hh => ⟨?_, ?_, ?_⟩⟩
  · simp [saveStep, hh]
  · intro q hq
    simp [mkdirParents, hq]
  · intro q hq
    simp [mkdirParents, hq]

/-- Witness for C7: saving a parquet file under `data/01_raw` on an
empty filesystem (no parent directory exists yet) succeeds and creates
`[data]` and `[data, 01_raw]`. -/
theorem C7_save_contract_witness :
    (connectionStep (mkFileDataset "data/01_raw/f.pq").connection_config
        emptyRegistry).handle = some 0 ∧
    saveStep (mkFileDataset "data/01_raw/f.pq") 7 (.ok ["data", "01_raw", "f.pq"])
        emptyRegistry []
      = (.ok ⟨0, "to_" ++ (mkFileDataset "data/01_raw/f.pq").file_format, 7,
            ["data", "01_raw", "f.pq"], (mkFileDataset "data/01_raw/f.pq").save_args⟩,
         (connectionStep (mkFileDataset "data/01_raw/f.pq").connection_config
            emptyRegistry).registry,
         mkdirParents [] (["data", "01_raw", "f.pq"] : FPath).dropLast) :=
  ⟨by simp +decide [mkFileDataset, DEFAULT_CONNECTION_CONFIG, connectionStep,
      emptyRegistry, findEntry, dictPop],
   (C7_save_contract.2 (mkFileDataset "data/01_raw/f.pq") 7 ["data", "01_raw", "f.pq"]
      emptyRegistry [] 0
      (by simp +decide [mkFileDataset, DEFAULT_CONNECTION_CONFIG, connectionStep,
        emptyRegistry, findEntry, dictPop])).1⟩

/-- C8: `_exists` returns false — raising nothing — exactly when load
path resolution fails with the versioning `DatasetError`, and otherwise
returns the filesystem check of the resolved path; the error is
suppressed only there, while `load` and `save` propagate it. -/
theorem C8_exists_contract :
    (∀ (e : DatasetError) (fx : FPath → Bool), existsStep (.error e) fx = false) ∧
    (∀ (p : FPath) (fx : FPath → Bool), existsStep (.ok p) fx = fx p) ∧
    (∀ (ds : FileDataset) (e : DatasetError) (st : Registry),
        (loadStep ds (.error e) st).1 = .datasetError e) ∧
    (∀ (ds : FileDataset) (data : Nat) (e : DatasetError) (st : Registry) (fs : FS),
        (saveStep ds data (.error e) st fs).1 = .datasetError e) :=
  ⟨fun _ _ => rfl, fun _ _ => rfl, fun _ _ _ => rfl, fun _ _ _ _ _ => rfl⟩

/-- C9: `_describe` returns exactly the adapter's static configuration —
filepath, file format, table name, the backend identifier from the
connection configuration, load and save arguments, and version — and
has no side effects: the registry and filesystem pass through unchanged,
no connection is obtained and no I/O happens. -/
theorem C9_describe_contract :
    ∀ (ds : FileDataset) (st : Registry) (fs : FS) (b : Value),
      lookupV "backend" ds.connection_config = some b →
      describeStep ds st fs
        = (some ⟨ds.filepath, ds.file_format, ds.table_name, b,
            ds.load_args, ds.save_args, ds.version⟩, st, fs) := by
  intro ds st fs b hb
  simp [describeStep, describeOf, hb]

/-- Witness for C9: a default-configured dataset describes to its static
fields with backend `duckdb`, any registry and filesystem untouched. -/
theorem C9_describe_contract_witness :
    lookupV "backend" (mkFileDataset "f.pq").connection_config = some (Value.str "duckdb") ∧
    describeStep (mkFileDataset "f.pq") emptyRegistry []
      = (some ⟨(mkFileDataset "f.pq").filepath, (mkFileDataset "f.pq").file_format,
          (mkFileDataset "f.pq").table_name, Value.str "duckdb",
          (mkFileDataset "f.pq").load_args, (mkFileDataset "f.pq").save_args,
          (mkFileDataset "f.pq").version⟩, emptyRegistry, []) :=
  ⟨by simp +decide [mkFileDataset, DEFAULT_CONNECTION_CONFIG, lookupV],
   C9_describe_contract (mkFileDataset "f.pq") emptyRegistry [] (Value.str "duckdb")
     (by simp +decide [mkFileDataset, DEFAULT_CONNECTION_CONFIG, lookupV])⟩

/-- C10: constructing with the connection argument omitted (the default
`None`), explicitly `None`, or the empty mapping stores the same default
connection configuration (`duckdb` with an in-memory database): Python's
`connection or DEFAULT_CONNECTION_CONFIG` treats the falsy empty dict
exactly like `None`. -/
theorem C10_default_connection :
    ∀ (fp ff : String) (tn : Option String) (la sa : Option Dict) (v : Option Version)
        (md : Option Value),
      (mkFileDataset fp ff tn none la sa v md).connection_config
          = DEFAULT_CONNECTION_CONFIG ∧
      (mkFileDataset fp ff tn (some []) la sa v md).connection_config
          = DEFAULT_CONNECTION_CONFIG ∧
      (mkFileDataset fp ff tn none la sa v md).connection_config
          = (mkFileDataset fp ff tn (some []) la sa v md).connection_config :=
  fun _ _ _ _ _ _ _ => ⟨rfl, rfl, rfl⟩
